import Mathlib

/-!
Verification of the multiplayer session coordinator of the chess web app.

The coordinator is the socket.io server embedded here from
src/src/middleware.ts (the variant with heartbeat and the liveness
sweeper, lines 657-916); src/src/pages/api/socket.ts carries the same
join/move/disconnect logic minus the `lastPing` field and the sweeper.

The board rules engine (chess.js) is external to the repository; the
spec treats it as an opaque capability (`applyMove`, `turnOf`,
`isTerminal`), so the development is parametric in an `Engine`
structure whose operations mirror the chess.js calls the coordinator
makes: `game.turn()`, `game.move(m)` (returning the new position and
the SAN notation, or failing), `game.fen()` (the board value itself
here), `game.isGameOver()`, `game.isCheckmate()`.
-/

namespace ChessCoord

/-- Identifier of one physical socket connection (socket.id). -/
abbrev ConnId := String

/-- Identifier of a room, as generated by createRoom. -/
abbrev RoomId := String

/-- Side to move / seat color; chess.js `turn()` returns 'w' or 'b'. -/
inductive Side where
  | white
  | black
deriving DecidableEq, Repr

/-- Rules-engine capability, per spec section 1: the engine is consumed
as an opaque capability. `move` returns the successor position and the
SAN notation of the applied move, or `none` when the engine rejects
(chess.js returns null or throws; the coordinator treats both as an
invalid move). `fromSan` injects a notation string back into the move
input type (chess.js `game.move` accepts SAN strings directly). -/
structure Engine (B M : Type) where
  start : B
  turn : B → Side
  move : B → M → Option (B × String)
  fromSan : String → M
  isGameOver : B → Bool
  isCheckmate : B → Bool

/-- Room record, embedded from the `GameRoom` interface
(src/src/middleware.ts lines 657-665): seats are optional connection
ids, spectators an ordered list (push order), `game` the engine board,
`moves` the SAN log, `lastMoveTime` and optional `lastPing` are
Date.now() timestamps (in the socket.ts variant `lastPing` is absent,
which the Option already covers). -/
structure GameRoom (B : Type) where
  white : Option ConnId
  black : Option ConnId
  spectators : List ConnId
  game : B
  moves : List String
  lastMoveTime : Int
  lastPing : Option Int
deriving DecidableEq

/-- Snapshot payload of a `gameState` emit: fen, seats, move log,
isGameOver, turn, and optionally the last move's SAN. -/
structure Snapshot (B : Type) where
  fen : B
  white : Option ConnId
  black : Option ConnId
  moves : List String
  isGameOver : Bool
  turn : Side
  lastMove : Option String
deriving DecidableEq

/-- Server-to-client events the handlers emit. -/
inductive SEvent (B : Type) where
  | gameState (snap : Snapshot B)
  | roomCreated (roomId : RoomId) (color : Side)
  | colorAssigned (color : Side)
  | spectatorMode
  | gameEnded (result : String)
  | playerLeft (color : Side) (gameState : B) (moves : List String)
  | roomClosed (reason : String)
  | errorMsg (msg : String)
  | pong
deriving DecidableEq

/-- One delivery instruction: `toConn` is `socket.emit`, `toRoom` is
`io.to(roomId).emit` (fan-out to every socket joined to the room
channel). -/
inductive Emit (B : Type) where
  | toConn (c : ConnId) (e : SEvent B)
  | toRoom (r : RoomId) (e : SEvent B)
deriving DecidableEq

/-- Registry of live rooms: the module-level `rooms` Map, modelled as an
association list in insertion order (Map.set keeps the position of an
existing key and appends a new one; forEach iterates in insertion
order). -/
abbrev Registry (B : Type) := List (RoomId × GameRoom B)

/-- Map.get: first entry with the key. -/
def lookupRoom {B : Type} : Registry B → RoomId → Option (GameRoom B)
  | [], _ => none
  | (k, r) :: rest, rid => if k = rid then some r else lookupRoom rest rid

/-- Map.set: replace in place if the key exists, else append. -/
def setRoom {B : Type} : Registry B → RoomId → GameRoom B → Registry B
  | [], rid, room => [(rid, room)]
  | (k, r) :: rest, rid, room =>
      if k = rid then (rid, room) :: rest else (k, r) :: setRoom rest rid room

/-- Registry keys are pairwise distinct (a Map property). -/
def NoDupKeys {B : Type} (st : Registry B) : Prop := (st.map Prod.fst).Nodup

/-- Membership test used by the ping handler (middleware.ts line 737):
the connection holds a seat or is listed as a spectator. -/
def memberOfRoom {B : Type} (room : GameRoom B) (conn : ConnId) : Bool :=
  room.white == some conn || room.black == some conn || room.spectators.contains conn

/-- Snapshot construction shared by requestGameState / joinRoom / move
(the object literal passed to `emit('gameState', ...)`). -/
def mkSnapshot {B M : Type} (E : Engine B M) (room : GameRoom B)
    (lastMove : Option String) : Snapshot B :=
  ⟨room.game, room.white, room.black, room.moves,
   E.isGameOver room.game, E.turn room.game, lastMove⟩

/-- Handler of `ping` (middleware.ts lines 733-741): emit pong to the
sender and refresh `lastPing` on every room the sender belongs to. -/
def pingH {B : Type} (st : Registry B) (conn : ConnId) (now : Int) :
    Registry B × List (Emit B) :=
  (st.map (fun e =>
      if memberOfRoom e.2 conn then (e.1, { e.2 with lastPing := some now }) else e),
   [Emit.toConn conn (SEvent.pong)])

/-- Handler of `requestGameState` (middleware.ts lines 743-757):
read-only; emits the snapshot to the requester, or an error when the
room is unknown. -/
def requestGameStateH {B M : Type} (E : Engine B M) (st : Registry B)
    (conn : ConnId) (rid : RoomId) : Registry B × List (Emit B) :=
  match lookupRoom st rid with
  | some room => (st, [Emit.toConn conn (SEvent.gameState (mkSnapshot E room none))])
  | none => (st, [Emit.toConn conn (SEvent.errorMsg ("Room not found"))])

/-- Handler of `createRoom` (middleware.ts lines 759-791). The random
id (Math.random().toString(36).substring(7)) is passed in as `rid`;
the code calls rooms.set unconditionally on it. The creator is seated
as white; the initial gameState broadcast carries literal
`isGameOver: false, turn: 'w'`. -/
def createRoomH {B M : Type} (E : Engine B M) (st : Registry B)
    (conn : ConnId) (rid : RoomId) (now : Int) : Registry B × List (Emit B) :=
  let room : GameRoom B := ⟨some conn, none, [], E.start, [], now, some now⟩
  (setRoom st rid room,
   [Emit.toConn conn (SEvent.roomCreated rid Side.white),
    Emit.toRoom rid (SEvent.gameState ⟨E.start, some conn, none, [], false, Side.white, none⟩)])

/-- Handler of `joinRoom` (middleware.ts lines 793-835): fill white if
empty, else black, else push onto spectators; refresh lastPing; emit
colorAssigned or spectatorMode to the joiner and the post-join
snapshot to the whole room. -/
def joinRoomH {B M : Type} (E : Engine B M) (st : Registry B)
    (conn : ConnId) (rid : RoomId) (now : Int) : Registry B × List (Emit B) :=
  match lookupRoom st rid with
  | none => (st, [Emit.toConn conn (SEvent.errorMsg ("Room not found"))])
  | some room =>
    if room.white = none then
      let room2 : GameRoom B := { room with white := some conn, lastPing := some now }
      (setRoom st rid room2,
       [Emit.toConn conn (SEvent.colorAssigned Side.white),
        Emit.toRoom rid (SEvent.gameState (mkSnapshot E room2 none))])
    else if room.black = none then
      let room2 : GameRoom B := { room with black := some conn, lastPing := some now }
      (setRoom st rid room2,
       [Emit.toConn conn (SEvent.colorAssigned Side.black),
        Emit.toRoom rid (SEvent.gameState (mkSnapshot E room2 none))])
    else
      let room2 : GameRoom B :=
        { room with spectators := room.spectators ++ [conn], lastPing := some now }
      (setRoom st rid room2,
       [Emit.toConn conn (SEvent.spectatorMode),
        Emit.toRoom rid (SEvent.gameState (mkSnapshot E room2 none))])

/-- Handler of `move` (middleware.ts lines 837-889). Validation order:
room exists; the caller holds the seat matching the side to move
(`isWhiteTurn` is read before the move is applied); the engine accepts.
On success the SAN is appended, timestamps refreshed, the snapshot
broadcast, and if the new position is terminal a gameEnded broadcast
follows (checkmate names the mover's color, every other terminal state
is a draw). -/
def moveH {B M : Type} (E : Engine B M) (st : Registry B) (conn : ConnId)
    (rid : RoomId) (m : M) (now : Int) : Registry B × List (Emit B) :=
  match lookupRoom st rid with
  | none => (st, [Emit.toConn conn (SEvent.errorMsg ("Room not found"))])
  | some room =>
    let isWhiteTurn : Prop := E.turn room.game = Side.white
    if (isWhiteTurn ∧ room.white ≠ some conn) ∨ (¬isWhiteTurn ∧ room.black ≠ some conn) then
      (st, [Emit.toConn conn (SEvent.errorMsg ("Not your turn"))])
    else
      match E.move room.game m with
      | none => (st, [Emit.toConn conn (SEvent.errorMsg ("Invalid move"))])
      | some (g2, san) =>
        let room2 : GameRoom B :=
          { room with game := g2, moves := room.moves ++ [san],
                      lastMoveTime := now, lastPing := some now }
        let stateEmit : Emit B := Emit.toRoom rid (SEvent.gameState (mkSnapshot E room2 (some san)))
        let endEmits : List (Emit B) :=
          if E.isGameOver g2 then
            [Emit.toRoom rid (SEvent.gameEnded
              (if E.isCheckmate g2 then
                 (if E.turn room.game = Side.white then ("white") else ("black"))
               else ("draw")))]
          else []
        (setRoom st rid room2, stateEmit :: endEmits)

/-- Color of the seat the disconnect handler clears: middleware.ts line
895 prefers white when both seats match the leaver. -/
def heldColor {B : Type} (room : GameRoom B) (conn : ConnId) : Side :=
  if room.white = some conn then Side.white else Side.black

/-- Room after clearing the held seat (middleware.ts lines 896-897):
only the computed color's seat is set to undefined. -/
def clearSeat {B : Type} (room : GameRoom B) (conn : ConnId) : GameRoom B :=
  if heldColor room conn = Side.white then { room with white := none }
  else { room with black := none }

/-- Surviving room after a seated disconnect: seat cleared, then the
leaver filtered out of the spectators (middleware.ts line 910). -/
def postDisconnectRoom {B : Type} (room : GameRoom B) (conn : ConnId) : GameRoom B :=
  { clearSeat room conn with
    spectators := (clearSeat room conn).spectators.filter (fun c => c ≠ conn) }

/-- Per-entry effect of a disconnect (middleware.ts lines 893-911):
when the leaver held a seat, clear that seat (white first when both
match), broadcast playerLeft, and delete the room if both seats are
now empty and the spectator list — checked before filtering — is
empty; then (when the room survives) filter the leaver out of the
spectators. Returns the surviving room, if any, and the emits. -/
def disconnectRoomEntry {B : Type} (conn : ConnId) (rid : RoomId)
    (room : GameRoom B) : Option (GameRoom B) × List (Emit B) :=
  if room.white = some conn ∨ room.black = some conn then
    let room1 : GameRoom B := clearSeat room conn
    let emits : List (Emit B) :=
      [Emit.toRoom rid (SEvent.playerLeft (heldColor room conn) room1.game room1.moves)]
    if room1.white = none ∧ room1.black = none ∧ room1.spectators = [] then
      (none, emits)
    else
      (some { room1 with spectators := room1.spectators.filter (fun c => c ≠ conn) }, emits)
  else
    (some { room with spectators := room.spectators.filter (fun c => c ≠ conn) }, [])

/-- Handler of `disconnect` (middleware.ts lines 891-915): fold
`disconnectRoomEntry` over the registry in iteration order. -/
def disconnectH {B : Type} (conn : ConnId) : Registry B → Registry B × List (Emit B)
  | [] => ([], [])
  | (rid, room) :: rest =>
    let step := disconnectRoomEntry conn rid room
    let tail := disconnectH conn rest
    match step.1 with
    | none => (tail.1, step.2 ++ tail.2)
    | some r => ((rid, r) :: tail.1, step.2 ++ tail.2)

/-- Inactivity timeout ROOM_INACTIVE_TIMEOUT = 300000 ms (5 minutes). -/
def roomInactiveTimeout : Int := 300000

/-- Staleness test of the sweeper (middleware.ts line 680): the last
move is older than the timeout AND (`lastPing` is unset OR also older
than the timeout). -/
def staleRoom {B : Type} (room : GameRoom B) (now : Int) : Bool :=
  decide (now - room.lastMoveTime > roomInactiveTimeout) &&
    (match room.lastPing with
     | none => true
     | some p => decide (now - p > roomInactiveTimeout))

/-- Sweeper cleanupInactiveRooms (middleware.ts lines 677-686): for
each stale room, broadcast roomClosed('inactivity') and delete it. -/
def cleanupInactiveRooms {B : Type} (now : Int) : Registry B → Registry B × List (Emit B)
  | [] => ([], [])
  | (rid, room) :: rest =>
    let tail := cleanupInactiveRooms now rest
    if staleRoom room now then
      (tail.1, Emit.toRoom rid (SEvent.roomClosed ("inactivity")) :: tail.2)
    else
      ((rid, room) :: tail.1, tail.2)

/-- Concrete miniature engine used to instantiate the parametric
theorems at witness inputs: a board is its own move history, any
nonempty string is a legal move and is its own notation, white moves
on even plies. -/
def toyMove (b : List String) (m : String) : Option (List String × String) :=
  if m.isEmpty then none else some (b ++ [m], m)

/-- Toy engine instance; games of six plies or more count as over. -/
def toyEngine : Engine (List String) String where
  start := []
  turn b := if b.length % 2 = 0 then Side.white else Side.black
  move := toyMove
  fromSan s := s
  isGameOver b := b.length ≥ 6
  isCheckmate _ := false

/-- The caller holds the seat whose color equals the side to move:
exactly the complement of the rejection test at middleware.ts line 846. -/
def holdsTurnSeat {B M : Type} (E : Engine B M) (room : GameRoom B) (conn : ConnId) : Prop :=
  (if E.turn room.game = Side.white then room.white else room.black) = some conn

/-- Seat/spectator disjointness of one room: no spectator holds a seat,
and the two seats are not held by the same connection. -/
def seatDisjoint {B : Type} (room : GameRoom B) : Prop :=
  (∀ c ∈ room.spectators, room.white ≠ some c ∧ room.black ≠ some c) ∧
  (room.white = none ∨ room.white ≠ room.black)

instance holdsTurnSeatDec {B M : Type} (E : Engine B M) (room : GameRoom B) (conn : ConnId) :
    Decidable (holdsTurnSeat E room conn) := by
  unfold holdsTurnSeat
  exact inferInstance

instance seatDisjointDec {B : Type} (room : GameRoom B) :
    Decidable (seatDisjoint room) := by
  unfold seatDisjoint
  exact inferInstance

theorem turnCond_iff {B M : Type} (E : Engine B M) (room : GameRoom B) (conn : ConnId) :
    ((E.turn room.game = Side.white ∧ room.white ≠ some conn) ∨
      (¬E.turn room.game = Side.white ∧ room.black ≠ some conn)) ↔
      ¬ holdsTurnSeat E room conn := by
  unfold holdsTurnSeat
  by_cases ht : E.turn room.game = Side.white <;> simp [ht]

theorem moveH_of_notTurn {B M : Type} (E : Engine B M) (st : Registry B)
    (conn : ConnId) (rid : RoomId) (m : M) (now : Int) (room : GameRoom B)
    (hroom : lookupRoom st rid = some room) (hn : ¬ holdsTurnSeat E room conn) :
    moveH E st conn rid m now = (st, [Emit.toConn conn (SEvent.errorMsg ("Not your turn"))]) := by
  unfold moveH
  rw [hroom]
  exact if_pos ((turnCond_iff E room conn).mpr hn)

theorem moveH_of_turn_ne {B M : Type} (E : Engine B M) (st : Registry B)
    (conn : ConnId) (rid : RoomId) (m : M) (now : Int) (room : GameRoom B)
    (hroom : lookupRoom st rid = some room) (hh : holdsTurnSeat E room conn) :
    moveH E st conn rid m now ≠ (st, [Emit.toConn conn (SEvent.errorMsg ("Not your turn"))]) := by
  unfold moveH
  rw [hroom]
  simp only
  rw [if_neg (fun hc => ((turnCond_iff E room conn).mp hc) hh)]
  cases hmv : E.move room.game m with
  | none => simp
  | some p =>
    obtain ⟨g2, san⟩ := p
    simp

/-- C1: for a room present in the registry, the move handler rejects
with the NotYourTurn error exactly when the caller does not hold the
seat whose color equals the side to move in the room's current board
state (white seat holder only on white's turn, symmetrically for
black, the holder of the idle seat and everyone unseated rejected);
in particular a spectator of a seat-disjoint room is always rejected
with NotYourTurn. -/
theorem move_accept_iff_turn_seat {B M : Type} (E : Engine B M) (st : Registry B)
    (conn : ConnId) (rid : RoomId) (m : M) (now : Int) (room : GameRoom B)
    (hroom : lookupRoom st rid = some room) :
    (moveH E st conn rid m now = (st, [Emit.toConn conn (SEvent.errorMsg ("Not your turn"))]) ↔
      ¬ holdsTurnSeat E room conn) ∧
    (conn ∈ room.spectators → seatDisjoint room →
      moveH E st conn rid m now = (st, [Emit.toConn conn (SEvent.errorMsg ("Not your turn"))])) := by
  refine ⟨⟨fun he => ?_, moveH_of_notTurn E st conn rid m now room hroom⟩, fun hs hd => ?_⟩
  · by_contra hh
    exact moveH_of_turn_ne E st conn rid m now room hroom hh he
  · apply moveH_of_notTurn E st conn rid m now room hroom
    intro hh
    unfold holdsTurnSeat at hh
    rcases hd.1 conn hs with ⟨hw, hb⟩
    by_cases ht : E.turn room.game = Side.white
    · rw [if_pos ht] at hh
      exact hw hh
    · rw [if_neg ht] at hh
      exact hb hh

/-- Concrete room for the C1 witness: white seat "a", black seat "b",
spectator "s", initial board (white to move). -/
def wRoom1 : GameRoom (List String) := ⟨some ("a"), some ("b"), [("s")], [], [], 0, some 0⟩

/-- Concrete one-room registry for the C1 witness. -/
def wSt1 : Registry (List String) := [(("r1"), wRoom1)]

/-- Witness for C1: the black seat holder moving on white's turn is
rejected with NotYourTurn. -/
theorem move_accept_iff_turn_seat_witness :
    moveH toyEngine wSt1 ("b") ("r1") ("e4") 5 =
      (wSt1, [Emit.toConn ("b") (SEvent.errorMsg ("Not your turn"))]) :=
  (move_accept_iff_turn_seat toyEngine wSt1 ("b") ("r1") ("e4") 5 wRoom1
    (by decide)).1.mpr (by decide)

theorem lookupRoom_setRoom_self {B : Type} (st : Registry B) (rid : RoomId) (room : GameRoom B) :
    lookupRoom (setRoom st rid room) rid = some room := by
  induction st with
  | nil => simp [setRoom, lookupRoom]
  | cons e rest ih =>
    obtain ⟨k, r⟩ := e
    by_cases hk : k = rid <;> simp [setRoom, lookupRoom, hk, ih]

theorem lookupRoom_setRoom_ne {B : Type} (st : Registry B) (rid rid' : RoomId)
    (room : GameRoom B) (h : rid' ≠ rid) :
    lookupRoom (setRoom st rid room) rid' = lookupRoom st rid' := by
  induction st with
  | nil => simp [setRoom, lookupRoom, Ne.symm h]
  | cons e rest ih =>
    obtain ⟨k, r⟩ := e
    by_cases hk : k = rid
    · subst hk
      simp [setRoom, lookupRoom, Ne.symm h]
    · by_cases hk' : k = rid' <;> simp [setRoom, lookupRoom, hk, hk', ih, h, Ne.symm h]

/-- Successor room written by a successful move (the four field updates
at middleware.ts lines 852-860). -/
def succRoom {B : Type} (room : GameRoom B) (g2 : B) (san : String) (now : Int) : GameRoom B :=
  { room with game := g2, moves := room.moves ++ [san],
              lastMoveTime := now, lastPing := some now }

theorem moveH_success_eq {B M : Type} (E : Engine B M) (st : Registry B)
    (conn : ConnId) (rid : RoomId) (m : M) (now : Int) (room : GameRoom B)
    (g2 : B) (san : String)
    (hroom : lookupRoom st rid = some room)
    (hseat : holdsTurnSeat E room conn)
    (hmv : E.move room.game m = some (g2, san)) :
    moveH E st conn rid m now =
      (setRoom st rid (succRoom room g2 san now),
       Emit.toRoom rid (SEvent.gameState (mkSnapshot E (succRoom room g2 san now) (some san))) ::
         (if E.isGameOver g2 then
            [Emit.toRoom rid (SEvent.gameEnded
              (if E.isCheckmate g2 then
                 (if E.turn room.game = Side.white then ("white") else ("black"))
               else ("draw")))]
          else [])) := by
  unfold moveH
  rw [hroom]
  simp only
  rw [if_neg (fun hc => (turnCond_iff E room conn).mp hc hseat), hmv]
  exact rfl

/-- C10: the move handler does not require both seats to be filled: when
the seat opposite the side to move is vacant and the caller holds the
turn seat, an engine-accepted move is applied (board replaced, SAN
appended) and the new snapshot is broadcast to the room. -/
theorem move_allowed_without_opponent {B M : Type} (E : Engine B M) (st : Registry B)
    (conn : ConnId) (rid : RoomId) (m : M) (now : Int) (room : GameRoom B)
    (g2 : B) (san : String)
    (hroom : lookupRoom st rid = some room)
    (_hvac : (if E.turn room.game = Side.white then room.black else room.white) = none)
    (hseat : holdsTurnSeat E room conn)
    (hmv : E.move room.game m = some (g2, san)) :
    lookupRoom (moveH E st conn rid m now).1 rid = some (succRoom room g2 san now) ∧
      (succRoom room g2 san now).game = g2 ∧
      (succRoom room g2 san now).moves = room.moves ++ [san] ∧
      Emit.toRoom rid (SEvent.gameState (mkSnapshot E (succRoom room g2 san now) (some san))) ∈
        (moveH E st conn rid m now).2 := by
  rw [moveH_success_eq E st conn rid m now room g2 san hroom hseat hmv]
  exact ⟨lookupRoom_setRoom_self st rid _, rfl, rfl, List.mem_cons_self _ _⟩

/-- Concrete lone-player room for the C10 witness: white seated, black
vacant, white to move. -/
def wRoom2 : GameRoom (List String) := ⟨some ("a"), none, [], [], [], 0, some 0⟩

/-- Concrete one-room registry for the C10 witness. -/
def wSt2 : Registry (List String) := [(("r2"), wRoom2)]

/-- Witness for C10: the lone white player's move is applied although
the black seat is vacant. -/
theorem move_allowed_without_opponent_witness :
    lookupRoom (moveH toyEngine wSt2 ("a") ("r2") ("e4") 7).1 ("r2") =
      some (succRoom wRoom2 (wRoom2.game ++ [("e4")]) ("e4") 7) ∧
    (succRoom wRoom2 (wRoom2.game ++ [("e4")]) ("e4") 7).game = wRoom2.game ++ [("e4")] ∧
    (succRoom wRoom2 (wRoom2.game ++ [("e4")]) ("e4") 7).moves = wRoom2.moves ++ [("e4")] ∧
    Emit.toRoom ("r2") (SEvent.gameState
      (mkSnapshot toyEngine (succRoom wRoom2 (wRoom2.game ++ [("e4")]) ("e4") 7) (some ("e4")))) ∈
      (moveH toyEngine wSt2 ("a") ("r2") ("e4") 7).2 :=
  move_allowed_without_opponent toyEngine wSt2 ("a") ("r2") ("e4") 7 wRoom2
    (wRoom2.game ++ [("e4")]) ("e4") (by decide) (by decide) (by decide) (by decide)

/-- Failure cases of the three registry-reading operations named by the
error-handling design: joinRoom and requestGameState on an unknown
room, and the three rejection paths of move. -/
inductive FailCase (M : Type) where
  | joinNotFound
  | stateNotFound
  | moveNotFound (m : M)
  | moveNotTurn (m : M)
  | moveIllegal (m : M)

/-- Precondition under which the corresponding handler takes its
failure path. -/
def failCaseApplies {B M : Type} (E : Engine B M) (st : Registry B) (conn : ConnId)
    (rid : RoomId) : FailCase M → Prop
  | .joinNotFound => lookupRoom st rid = none
  | .stateNotFound => lookupRoom st rid = none
  | .moveNotFound _ => lookupRoom st rid = none
  | .moveNotTurn _ => ∃ room, lookupRoom st rid = some room ∧ ¬ holdsTurnSeat E room conn
  | .moveIllegal m => ∃ room, lookupRoom st rid = some room ∧ holdsTurnSeat E room conn ∧
      E.move room.game m = none

/-- Dispatch of a failure case to the handler it exercises. -/
def failCaseRun {B M : Type} (E : Engine B M) (st : Registry B) (conn : ConnId)
    (rid : RoomId) (now : Int) : FailCase M → Registry B × List (Emit B)
  | .joinNotFound => joinRoomH E st conn rid now
  | .stateNotFound => requestGameStateH E st conn rid
  | .moveNotFound m => moveH E st conn rid m now
  | .moveNotTurn m => moveH E st conn rid m now
  | .moveIllegal m => moveH E st conn rid m now

/-- Error message the handler sends for each failure case. -/
def failCaseMsg {M : Type} : FailCase M → String
  | .joinNotFound => "Room not found"
  | .stateNotFound => "Room not found"
  | .moveNotFound _ => "Room not found"
  | .moveNotTurn _ => "Not your turn"
  | .moveIllegal _ => "Invalid move"

/-- C7: every failing operation (joinRoom or requestGameState on an
unknown room; move on an unknown room, out of turn, or rejected by the
engine) leaves the registry unchanged and emits exactly one error
event to the originating connection — no broadcast to the room. -/
theorem failing_ops_only_error_caller {B M : Type} (E : Engine B M) (st : Registry B)
    (conn : ConnId) (rid : RoomId) (now : Int) (k : FailCase M)
    (h : failCaseApplies E st conn rid k) :
    failCaseRun E st conn rid now k =
      (st, [Emit.toConn conn (SEvent.errorMsg (failCaseMsg k))]) := by
  cases k with
  | joinNotFound =>
    unfold failCaseRun failCaseMsg joinRoomH
    rw [show lookupRoom st rid = none from h]
  | stateNotFound =>
    unfold failCaseRun failCaseMsg requestGameStateH
    rw [show lookupRoom st rid = none from h]
  | moveNotFound m =>
    unfold failCaseRun failCaseMsg moveH
    rw [show lookupRoom st rid = none from h]
  | moveNotTurn m =>
    obtain ⟨room, hroom, hn⟩ := h
    exact moveH_of_notTurn E st conn rid m now room hroom hn
  | moveIllegal m =>
    obtain ⟨room, hroom, hseat, hmv⟩ := h
    unfold failCaseRun failCaseMsg moveH
    rw [hroom]
    simp only
    rw [if_neg (fun hc => (turnCond_iff E room conn).mp hc hseat), hmv]

/-- Witness for C7: an out-of-turn move on a concrete registry is
answered with a single error to the caller and no state change. -/
theorem failing_ops_only_error_caller_witness :
    failCaseRun toyEngine wSt1 ("b") ("r1") 5 (FailCase.moveNotTurn ("e4")) =
      (wSt1, [Emit.toConn ("b") (SEvent.errorMsg ("Not your turn"))]) :=
  failing_ops_only_error_caller toyEngine wSt1 ("b") ("r1") 5 (FailCase.moveNotTurn ("e4"))
    ⟨wRoom1, by decide, by decide⟩

/-- Room after a spectator join: the joiner appended to the spectators
and lastPing refreshed. -/
def specJoinRoom {B : Type} (room : GameRoom B) (conn : ConnId) (now : Int) : GameRoom B :=
  { room with spectators := room.spectators ++ [conn], lastPing := some now }

/-- C8: joinRoom on an existing room seats the joiner as white if that
seat is empty, else as black if that seat is empty, else appends the
joiner to the spectators (who then receives the spectator-mode event
and, being a member of the room, is included in every subsequent state
broadcast to the room); occupied seats are never reassigned; joinRoom
on an unknown room id fails with the RoomNotFound error. -/
theorem joinRoom_assignment {B M : Type} (E : Engine B M) (st : Registry B)
    (conn : ConnId) (rid : RoomId) (now : Int) :
    (lookupRoom st rid = none →
      joinRoomH E st conn rid now = (st, [Emit.toConn conn (SEvent.errorMsg ("Room not found"))])) ∧
    ∀ room, lookupRoom st rid = some room →
      (room.white = none →
        joinRoomH E st conn rid now =
          (setRoom st rid { room with white := some conn, lastPing := some now },
           [Emit.toConn conn (SEvent.colorAssigned Side.white),
            Emit.toRoom rid (SEvent.gameState
              (mkSnapshot E { room with white := some conn, lastPing := some now } none))])) ∧
      (room.white ≠ none → room.black = none →
        joinRoomH E st conn rid now =
          (setRoom st rid { room with black := some conn, lastPing := some now },
           [Emit.toConn conn (SEvent.colorAssigned Side.black),
            Emit.toRoom rid (SEvent.gameState
              (mkSnapshot E { room with black := some conn, lastPing := some now } none))])) ∧
      (room.white ≠ none → room.black ≠ none →
        joinRoomH E st conn rid now =
          (setRoom st rid (specJoinRoom room conn now),
           [Emit.toConn conn (SEvent.spectatorMode),
            Emit.toRoom rid (SEvent.gameState
              (mkSnapshot E (specJoinRoom room conn now) none))]) ∧
        conn ∈ (specJoinRoom room conn now).spectators) ∧
      ∀ room2, lookupRoom (joinRoomH E st conn rid now).1 rid = some room2 →
        (room.white ≠ none → room2.white = room.white) ∧
        (room.black ≠ none → room2.black = room.black) := by
  constructor
  · intro h
    unfold joinRoomH
    rw [h]
  · intro room hroom
    refine ⟨fun hw => ?_, fun hw hb => ?_, fun hw hb => ⟨?_, ?_⟩, fun room2 h2 => ?_⟩
    · simp only [joinRoomH, hroom, hw, if_pos]
    · simp only [joinRoomH, hroom, hw, hb, if_neg, if_pos]
      simp
    · simp only [joinRoomH, hroom, specJoinRoom]
      rw [if_neg hw, if_neg hb]
    · simp [specJoinRoom]
    · simp only [joinRoomH, hroom] at h2
      by_cases hw : room.white = none
      · rw [if_pos hw, lookupRoom_setRoom_self] at h2
        cases h2
        exact ⟨fun hc => absurd hw hc, fun _ => rfl⟩
      · rw [if_neg hw] at h2
        by_cases hb : room.black = none
        · rw [if_pos hb, lookupRoom_setRoom_self] at h2
          cases h2
          exact ⟨fun _ => rfl, fun hc => absurd hb hc⟩
        · rw [if_neg hb, lookupRoom_setRoom_self] at h2
          cases h2
          exact ⟨fun _ => rfl, fun _ => rfl⟩

/-- Witness for C8: a third joiner of a full concrete room becomes a
spectator, receives spectator-mode, and is a member of the room. -/
theorem joinRoom_assignment_witness :
    joinRoomH toyEngine wSt1 ("c") ("r1") 9 =
      (setRoom wSt1 ("r1") (specJoinRoom wRoom1 ("c") 9),
       [Emit.toConn ("c") (SEvent.spectatorMode),
        Emit.toRoom ("r1") (SEvent.gameState
          (mkSnapshot toyEngine (specJoinRoom wRoom1 ("c") 9) none))]) ∧
    ("c" : ConnId) ∈ (specJoinRoom wRoom1 ("c") 9).spectators :=
  ((joinRoom_assignment toyEngine wSt1 ("c") ("r1") 9).2 wRoom1 (by decide)).2.2.1
    (by decide) (by decide)

/-- Counterexample to C9: createRoom performs an unconditional
rooms.set on the generated id (middleware.ts line 764, socket.ts line
86), so when the generated identifier collides with an existing
room's id the existing room is replaced by the fresh one — the server
does not regenerate the identifier. -/
theorem createRoom_overwrites_on_collision :
    lookupRoom wSt1 ("r1") = some wRoom1 ∧
    lookupRoom (createRoomH toyEngine wSt1 ("z") ("r1") 3).1 ("r1") =
      some (⟨some ("z"), none, [], [], [], 3, some 3⟩ : GameRoom (List String)) ∧
    (⟨some ("z"), none, [], [], [], 3, some 3⟩ : GameRoom (List String)) ≠ wRoom1 := by
  refine ⟨rfl, ?_, by decide⟩
  exact lookupRoom_setRoom_self wSt1 ("r1") _

/-- C9 amended: when the generated identifier is not already present in
the registry (collision is merely improbable, not re-rolled), the
create operation inserts a fresh room — creator seated as white, black
empty, no spectators, empty move log — leaves every other room
unchanged, and reports roomCreated to the creator followed by the
initial snapshot broadcast. On a collision the existing room is
overwritten (see the counterexample). -/
theorem createRoom_fresh_insert {B M : Type} (E : Engine B M) (st : Registry B)
    (conn : ConnId) (rid : RoomId) (now : Int)
    (_hfresh : lookupRoom st rid = none) :
    lookupRoom (createRoomH E st conn rid now).1 rid =
      some ⟨some conn, none, [], E.start, [], now, some now⟩ ∧
    (∀ rid', rid' ≠ rid → lookupRoom (createRoomH E st conn rid now).1 rid' = lookupRoom st rid') ∧
    (createRoomH E st conn rid now).2 =
      [Emit.toConn conn (SEvent.roomCreated rid Side.white),
       Emit.toRoom rid (SEvent.gameState ⟨E.start, some conn, none, [], false, Side.white, none⟩)] := by
  refine ⟨lookupRoom_setRoom_self st rid _, fun rid' h => ?_, rfl⟩
  exact lookupRoom_setRoom_ne st rid rid' _ h

/-- Witness for the amended C9: creating under a fresh id inserts the
expected room and leaves the pre-existing room untouched. -/
theorem createRoom_fresh_insert_witness :
    lookupRoom (createRoomH toyEngine wSt1 ("w") ("r9") 4).1 ("r9") =
      some (⟨some ("w"), none, [], [], [], 4, some 4⟩ : GameRoom (List String)) ∧
    lookupRoom (createRoomH toyEngine wSt1 ("w") ("r9") 4).1 ("r1") = lookupRoom wSt1 ("r1") :=
  ⟨(createRoom_fresh_insert toyEngine wSt1 ("w") ("r9") 4 (by decide)).1,
   (createRoom_fresh_insert toyEngine wSt1 ("w") ("r9") 4 (by decide)).2.1 ("r1") (by decide)⟩

instance noDupKeysDec {B : Type} (st : Registry B) : Decidable (NoDupKeys st) := by
  unfold NoDupKeys
  exact List.nodupDecidable _

theorem lookupRoom_none_iff {B : Type} (st : Registry B) (rid : RoomId) :
    lookupRoom st rid = none ↔ rid ∉ st.map Prod.fst := by
  induction st with
  | nil => simp [lookupRoom]
  | cons e rest ih =>
    obtain ⟨k, r⟩ := e
    by_cases hk : k = rid
    · subst hk
      simp [lookupRoom]
    · simp [lookupRoom, hk, Ne.symm hk, ih]

theorem cleanup_lookupRoom_none {B : Type} (now : Int) (st : Registry B) (rid : RoomId)
    (h : lookupRoom st rid = none) :
    lookupRoom (cleanupInactiveRooms now st).1 rid = none := by
  induction st with
  | nil => simp [cleanupInactiveRooms, lookupRoom]
  | cons e rest ih =>
    obtain ⟨k, r⟩ := e
    simp only [lookupRoom] at h
    by_cases hk : k = rid
    · simp [hk] at h
    · rw [if_neg hk] at h
      simp only [cleanupInactiveRooms]
      by_cases hs : staleRoom r now
      · simp [hs, ih h]
      · simp [hs, lookupRoom, hk, ih h]

theorem cleanup_closed_emit_key {B : Type} (now : Int) (st : Registry B) (rid : RoomId)
    (h : Emit.toRoom rid (SEvent.roomClosed ("inactivity")) ∈ (cleanupInactiveRooms now st).2) :
    rid ∈ st.map Prod.fst := by
  induction st with
  | nil => simp [cleanupInactiveRooms] at h
  | cons e rest ih =>
    obtain ⟨k, r⟩ := e
    simp only [cleanupInactiveRooms] at h
    by_cases hs : staleRoom r now
    · rw [if_pos hs] at h
      rcases List.mem_cons.mp h with heq | htail
      · injection heq with h1 h2
        subst h1
        simp
      · simp [ih htail]
    · rw [if_neg hs] at h
      simp [ih h]

theorem cleanup_deletes_iff {B : Type} (now : Int) (st : Registry B) (rid : RoomId)
    (room : GameRoom B) (hnd : NoDupKeys st) (hmem : (rid, room) ∈ st) :
    (lookupRoom (cleanupInactiveRooms now st).1 rid = none ↔ staleRoom room now = true) := by
  induction st with
  | nil => cases hmem
  | cons e rest ih =>
    obtain ⟨k, r⟩ := e
    have hnd2 : NoDupKeys rest := (List.nodup_cons.mp hnd).2
    have hknot : k ∉ rest.map Prod.fst := (List.nodup_cons.mp hnd).1
    rcases List.mem_cons.mp hmem with heq | hmem'
    · injection heq with h1 h2
      subst h1
      subst h2
      have hnone : lookupRoom rest rid = none :=
        (lookupRoom_none_iff rest rid).mpr hknot
      simp only [cleanupInactiveRooms]
      by_cases hs : staleRoom room now
      · simp [hs, cleanup_lookupRoom_none now rest rid hnone]
      · simp [hs, lookupRoom]
    · have hk : ¬ k = rid := by
        intro he
        subst he
        exact hknot (List.mem_map_of_mem Prod.fst hmem')
      simp only [cleanupInactiveRooms]
      by_cases hs : staleRoom r now
      · simp only [if_pos hs]
        exact ih hnd2 hmem'
      · simp only [if_neg hs, lookupRoom]
        rw [if_neg hk]
        exact ih hnd2 hmem'

theorem cleanup_emit_iff {B : Type} (now : Int) (st : Registry B) (rid : RoomId)
    (room : GameRoom B) (hnd : NoDupKeys st) (hmem : (rid, room) ∈ st) :
    (Emit.toRoom rid (SEvent.roomClosed ("inactivity")) ∈ (cleanupInactiveRooms now st).2 ↔
      staleRoom room now = true) := by
  induction st with
  | nil => cases hmem
  | cons e rest ih =>
    obtain ⟨k, r⟩ := e
    have hnd2 : NoDupKeys rest := (List.nodup_cons.mp hnd).2
    have hknot : k ∉ rest.map Prod.fst := (List.nodup_cons.mp hnd).1
    rcases List.mem_cons.mp hmem with heq | hmem'
    · injection heq with h1 h2
      subst h1
      subst h2
      simp only [cleanupInactiveRooms]
      by_cases hs : staleRoom room now
      · simp [hs]
      · simp only [if_neg hs]
        constructor
        · intro h
          exact absurd (cleanup_closed_emit_key now rest rid h)
            ((lookupRoom_none_iff rest rid).mp ((lookupRoom_none_iff rest rid).mpr hknot))
        · intro h
          exact absurd h hs
    · have hk : ¬ k = rid := by
        intro he
        subst he
        exact hknot (List.mem_map_of_mem Prod.fst hmem')
      simp only [cleanupInactiveRooms]
      by_cases hs : staleRoom r now
      · simp only [if_pos hs, List.mem_cons]
        rw [ih hnd2 hmem']
        constructor
        · intro h
          rcases h with h | h
          · injection h with h1 h2
            exact absurd h1.symm hk
          · exact h
        · intro h
          exact Or.inr h
      · simp only [if_neg hs]
        exact ih hnd2 hmem'

/-- C6: the liveness sweeper deletes a room from the registry exactly
when, at sweep time, the elapsed time since the last applied move and
the elapsed time since the last heartbeat both exceed the 5-minute
inactivity timeout; and it emits the room-closed broadcast with reason
inactivity to the room's channel exactly for the rooms it deletes (the
broadcast is issued before the deletion within the same sweep step). -/
theorem sweeper_closes_iff_both_stale {B : Type} (now : Int) (st : Registry B)
    (rid : RoomId) (room : GameRoom B) (p : Int)
    (hnd : NoDupKeys st) (hmem : (rid, room) ∈ st) (hp : room.lastPing = some p) :
    (lookupRoom (cleanupInactiveRooms now st).1 rid = none ↔
      (now - room.lastMoveTime > roomInactiveTimeout ∧ now - p > roomInactiveTimeout)) ∧
    (Emit.toRoom rid (SEvent.roomClosed ("inactivity")) ∈ (cleanupInactiveRooms now st).2 ↔
      (now - room.lastMoveTime > roomInactiveTimeout ∧ now - p > roomInactiveTimeout)) := by
  have hstale : staleRoom room now = true ↔
      (now - room.lastMoveTime > roomInactiveTimeout ∧ now - p > roomInactiveTimeout) := by
    simp [staleRoom, hp]
  exact ⟨(cleanup_deletes_iff now st rid room hnd hmem).trans hstale,
         (cleanup_emit_iff now st rid room hnd hmem).trans hstale⟩

/-- Stale concrete room for the C6 witness: last move and last ping at
time 0. -/
def wRoomStale : GameRoom (List String) := ⟨some ("a"), some ("b"), [], [], [], 0, some 0⟩

/-- Recently active concrete room for the C6 witness. -/
def wRoomFresh : GameRoom (List String) := ⟨some ("x"), none, [], [], [], 399999, some 399999⟩

/-- Concrete two-room registry for the C6 witness. -/
def wStSweep : Registry (List String) := [(("rA"), wRoomStale), (("rB"), wRoomFresh)]

/-- Witness for C6 at a concrete sweep: the stale room is deleted with
its closure broadcast. -/
theorem sweeper_closes_iff_both_stale_witness :
    (lookupRoom (cleanupInactiveRooms 400000 wStSweep).1 ("rA") = none ↔
      ((400000 : Int) - wRoomStale.lastMoveTime > roomInactiveTimeout ∧
        (400000 : Int) - 0 > roomInactiveTimeout)) ∧
    (Emit.toRoom ("rA") (SEvent.roomClosed ("inactivity")) ∈
        (cleanupInactiveRooms 400000 wStSweep).2 ↔
      ((400000 : Int) - wRoomStale.lastMoveTime > roomInactiveTimeout ∧
        (400000 : Int) - 0 > roomInactiveTimeout)) :=
  sweeper_closes_iff_both_stale 400000 wStSweep ("rA") wRoomStale 0
    (by decide) (by decide) rfl

/-- Test recognizing a playerLeft broadcast addressed to a given room. -/
def isPlayerLeftAt {B : Type} (rid : RoomId) : Emit B → Bool
  | Emit.toRoom r (SEvent.playerLeft _ _ _) => r == rid
  | _ => false

theorem clearSeat_game {B : Type} (room : GameRoom B) (conn : ConnId) :
    (clearSeat room conn).game = room.game := by
  unfold clearSeat
  split <;> rfl

theorem clearSeat_moves {B : Type} (room : GameRoom B) (conn : ConnId) :
    (clearSeat room conn).moves = room.moves := by
  unfold clearSeat
  split <;> rfl

theorem clearSeat_spectators {B : Type} (room : GameRoom B) (conn : ConnId) :
    (clearSeat room conn).spectators = room.spectators := by
  unfold clearSeat
  split <;> rfl

theorem disconnectRoomEntry_seated_emits {B : Type} (conn : ConnId) (rid : RoomId)
    (room : GameRoom B) (hseat : room.white = some conn ∨ room.black = some conn) :
    (disconnectRoomEntry conn rid room).2 =
      [Emit.toRoom rid (SEvent.playerLeft (heldColor room conn) room.game room.moves)] := by
  unfold disconnectRoomEntry
  rw [if_pos hseat]
  simp only
  split <;> rw [clearSeat_game, clearSeat_moves]

theorem disconnectRoomEntry_keep {B : Type} (conn : ConnId) (rid : RoomId)
    (room : GameRoom B) (hseat : room.white = some conn ∨ room.black = some conn)
    (hkeep : ¬((clearSeat room conn).white = none ∧ (clearSeat room conn).black = none ∧
      (clearSeat room conn).spectators = [])) :
    (disconnectRoomEntry conn rid room).1 = some (postDisconnectRoom room conn) := by
  unfold disconnectRoomEntry
  rw [if_pos hseat]
  simp only
  rw [if_neg hkeep]
  rfl

theorem disconnectH_cons_emits {B : Type} (conn : ConnId) (k : RoomId) (r : GameRoom B)
    (rest : Registry B) :
    (disconnectH conn ((k, r) :: rest)).2 =
      (disconnectRoomEntry conn k r).2 ++ (disconnectH conn rest).2 := by
  simp only [disconnectH]
  cases h : (disconnectRoomEntry conn k r).1 <;> simp [h]

theorem disconnectH_cons_lookup_other {B : Type} (conn : ConnId) (k : RoomId)
    (r : GameRoom B) (rest : Registry B) (rid : RoomId) (hk : ¬ k = rid) :
    lookupRoom (disconnectH conn ((k, r) :: rest)).1 rid =
      lookupRoom (disconnectH conn rest).1 rid := by
  simp only [disconnectH]
  cases h : (disconnectRoomEntry conn k r).1 with
  | none => simp [h]
  | some r2 => simp [h, lookupRoom, hk]

theorem disconnectH_cons_keep {B : Type} (conn : ConnId) (k : RoomId) (r r2 : GameRoom B)
    (rest : Registry B) (h : (disconnectRoomEntry conn k r).1 = some r2) :
    (disconnectH conn ((k, r) :: rest)).1 = (k, r2) :: (disconnectH conn rest).1 := by
  simp only [disconnectH]
  simp [h]

theorem disconnectRoomEntry_emits_other {B : Type} (conn : ConnId) (k : RoomId)
    (r : GameRoom B) (rid : RoomId) (hk : ¬ k = rid) :
    ((disconnectRoomEntry conn k r).2.filter (isPlayerLeftAt rid)) = [] := by
  unfold disconnectRoomEntry
  by_cases hs : r.white = some conn ∨ r.black = some conn
  · rw [if_pos hs]
    simp only
    split <;> simp [isPlayerLeftAt, hk]
  · rw [if_neg hs]
    rfl

theorem disconnectH_no_emits_at {B : Type} (conn : ConnId) (st : Registry B) (rid : RoomId)
    (h : rid ∉ st.map Prod.fst) :
    ((disconnectH conn st).2.filter (isPlayerLeftAt rid)) = [] := by
  induction st with
  | nil => rfl
  | cons e rest ih =>
    obtain ⟨k, r⟩ := e
    simp only [List.map_cons, List.mem_cons] at h
    push_neg at h
    rw [disconnectH_cons_emits, List.filter_append,
        disconnectRoomEntry_emits_other conn k r rid (fun he => h.1 he.symm), ih h.2]
    rfl

theorem keep_of_other_present {B : Type} (room : GameRoom B) (conn : ConnId)
    (hk : (if heldColor room conn = Side.white then room.black else room.white) ≠ none ∨
      room.spectators ≠ []) :
    ¬((clearSeat room conn).white = none ∧ (clearSeat room conn).black = none ∧
      (clearSeat room conn).spectators = []) := by
  unfold clearSeat at *
  by_cases hh : heldColor room conn = Side.white <;> simp [hh] at * <;> tauto

theorem postDisconnect_seat_cleared {B : Type} (room : GameRoom B) (conn : ConnId) :
    (if heldColor room conn = Side.white then (postDisconnectRoom room conn).white
     else (postDisconnectRoom room conn).black) = none := by
  unfold postDisconnectRoom clearSeat
  by_cases hh : heldColor room conn = Side.white <;> simp [hh]

/-- C5: when a connection holding a seat disconnects, exactly one
playerLeft broadcast is sent to that room's channel (so every
remaining member receives it exactly once), carrying the held color
together with the room's board and move log — which equal the
surviving room's state — and, whenever the other seat is occupied or
any spectator remains, the room survives in the registry with the
held seat unset. -/
theorem disconnect_seated_player {B : Type} (st : Registry B) (conn : ConnId)
    (rid : RoomId) (room : GameRoom B)
    (hnd : NoDupKeys st) (hmem : (rid, room) ∈ st)
    (hseat : room.white = some conn ∨ room.black = some conn) :
    Emit.toRoom rid (SEvent.playerLeft (heldColor room conn) room.game room.moves) ∈
      (disconnectH conn st).2 ∧
    ((disconnectH conn st).2.filter (isPlayerLeftAt rid)).length = 1 ∧
    ((if heldColor room conn = Side.white then room.black else room.white) ≠ none ∨
        room.spectators ≠ [] →
      lookupRoom (disconnectH conn st).1 rid = some (postDisconnectRoom room conn) ∧
      (if heldColor room conn = Side.white then (postDisconnectRoom room conn).white
       else (postDisconnectRoom room conn).black) = none ∧
      (postDisconnectRoom room conn).game = room.game ∧
      (postDisconnectRoom room conn).moves = room.moves) := by
  induction st with
  | nil => cases hmem
  | cons e rest ih =>
    obtain ⟨k, r⟩ := e
    have hnd2 : NoDupKeys rest := (List.nodup_cons.mp hnd).2
    have hknot : k ∉ rest.map Prod.fst := (List.nodup_cons.mp hnd).1
    rcases List.mem_cons.mp hmem with heq | hmem'
    · injection heq with h1 h2
      subst h1
      subst h2
      have hemits := disconnectRoomEntry_seated_emits conn rid room hseat
      refine ⟨?_, ?_, fun hkeep => ?_⟩
      · rw [disconnectH_cons_emits, hemits]
        exact List.mem_append_left _ (List.mem_cons_self _ _)
      · rw [disconnectH_cons_emits, List.filter_append, hemits,
            disconnectH_no_emits_at conn rest rid hknot]
        simp [isPlayerLeftAt]
      · have hkeepc := keep_of_other_present room conn hkeep
        rw [disconnectH_cons_keep conn rid room (postDisconnectRoom room conn) rest
              (disconnectRoomEntry_keep conn rid room hseat hkeepc)]
        refine ⟨?_, postDisconnect_seat_cleared room conn, ?_, ?_⟩
        · simp [lookupRoom]
        · exact clearSeat_game room conn
        · exact clearSeat_moves room conn
    · have hk : ¬ k = rid := by
        intro he
        subst he
        exact hknot (List.mem_map_of_mem Prod.fst hmem')
      have hrec := ih hnd2 hmem'
      refine ⟨?_, ?_, fun hkeep => ?_⟩
      · rw [disconnectH_cons_emits]
        exact List.mem_append_right _ hrec.1
      · rw [disconnectH_cons_emits, List.filter_append,
            disconnectRoomEntry_emits_other conn k r rid hk]
        exact hrec.2.1
      · rw [disconnectH_cons_lookup_other conn k r rest rid hk]
        exact hrec.2.2 hkeep

/-- Concrete room for the C5 witness: white "a" disconnects while black
"b" is still seated and "s" spectates. -/
theorem disconnect_seated_player_witness :
    Emit.toRoom ("r1") (SEvent.playerLeft (heldColor wRoom1 ("a")) wRoom1.game wRoom1.moves) ∈
      (disconnectH ("a") wSt1).2 ∧
    ((disconnectH ("a") wSt1).2.filter (isPlayerLeftAt ("r1"))).length = 1 ∧
    (lookupRoom (disconnectH ("a") wSt1).1 ("r1") = some (postDisconnectRoom wRoom1 ("a")) ∧
      (if heldColor wRoom1 ("a") = Side.white then (postDisconnectRoom wRoom1 ("a")).white
       else (postDisconnectRoom wRoom1 ("a")).black) = none ∧
      (postDisconnectRoom wRoom1 ("a")).game = wRoom1.game ∧
      (postDisconnectRoom wRoom1 ("a")).moves = wRoom1.moves) := by
  have h := disconnect_seated_player wSt1 ("a") ("r1") wRoom1 (by decide) (by decide)
    (Or.inl (by decide))
  exact ⟨h.1, h.2.1, h.2.2 (Or.inl (by decide))⟩

/-- No room in the registry lists the given connection as a spectator. -/
def NoSpectatorIn {B : Type} (conn : ConnId) (st : Registry B) : Prop :=
  ∀ e ∈ st, conn ∉ e.2.spectators

instance noSpectatorInDec {B : Type} (conn : ConnId) (st : Registry B) :
    Decidable (NoSpectatorIn conn st) := by
  unfold NoSpectatorIn
  exact List.decidableBAll _ _

/-- Registry obtained by creating room r (creator w), seating b, adding
spectator s, then disconnecting w, b and finally s. -/
def emptyRoomLeftSt : Registry (List String) :=
  (disconnectH ("s")
    (disconnectH ("b")
      (disconnectH ("w")
        (joinRoomH toyEngine
          (joinRoomH toyEngine
            (createRoomH toyEngine [] ("w") ("r") 0).1 ("b") ("r") 0).1 ("s") ("r") 0).1).1).1).1

/-- Counterexample to C3: after the last spectator of an already
seatless room disconnects, the room — both seats empty, no spectators —
remains in the registry: the disconnect handler only deletes a room
when the leaver held a seat, and it checks the spectator list before
filtering the leaver out of it (middleware.ts lines 894-910). -/
theorem disconnect_leaves_dangling_empty_room :
    lookupRoom emptyRoomLeftSt ("r") =
      some (⟨none, none, [], [], [], 0, some 0⟩ : GameRoom (List String)) ∧
    lookupRoom emptyRoomLeftSt ("r") ≠ none := by
  constructor
  · decide
  · decide

theorem disconnectH_cons_del {B : Type} (conn : ConnId) (k : RoomId) (r : GameRoom B)
    (rest : Registry B) (h : (disconnectRoomEntry conn k r).1 = none) :
    (disconnectH conn ((k, r) :: rest)).1 = (disconnectH conn rest).1 := by
  simp only [disconnectH]
  simp [h]

theorem disconnectRoomEntry_keep_spectators {B : Type} (conn : ConnId) (k : RoomId)
    (r r2 : GameRoom B) (h : (disconnectRoomEntry conn k r).1 = some r2) :
    conn ∉ r2.spectators := by
  simp only [disconnectRoomEntry] at h
  split_ifs at h with h1 h2 <;> simp at h <;> (subst h; simp [List.mem_filter])

theorem disconnectH_no_spectator {B : Type} (conn : ConnId) (st : Registry B) :
    NoSpectatorIn conn (disconnectH conn st).1 := by
  induction st with
  | nil =>
    intro e he
    cases he
  | cons ent rest ih =>
    obtain ⟨k, r⟩ := ent
    intro e he
    cases h : (disconnectRoomEntry conn k r).1 with
    | none =>
      rw [disconnectH_cons_del conn k r rest h] at he
      exact ih e he
    | some r2 =>
      rw [disconnectH_cons_keep conn k r r2 rest h] at he
      rcases List.mem_cons.mp he with he1 | he2
      · subst he1
        exact disconnectRoomEntry_keep_spectators conn k r r2 h
      · exact ih e he2

theorem disconnectH_lookup_none {B : Type} (conn : ConnId) (st : Registry B) (rid : RoomId)
    (h : lookupRoom st rid = none) :
    lookupRoom (disconnectH conn st).1 rid = none := by
  induction st with
  | nil => rfl
  | cons ent rest ih =>
    obtain ⟨k, r⟩ := ent
    simp only [lookupRoom] at h
    by_cases hk : k = rid
    · simp [hk] at h
    · rw [if_neg hk] at h
      cases hstep : (disconnectRoomEntry conn k r).1 with
      | none =>
        rw [disconnectH_cons_del conn k r rest hstep]
        exact ih h
      | some r2 =>
        rw [disconnectH_cons_keep conn k r r2 rest hstep]
        simp only [lookupRoom]
        rw [if_neg hk]
        exact ih h

theorem disconnectRoomEntry_del {B : Type} (conn : ConnId) (k : RoomId) (room : GameRoom B)
    (hseat : room.white = some conn ∨ room.black = some conn)
    (hw : (clearSeat room conn).white = none) (hb : (clearSeat room conn).black = none)
    (hs : room.spectators = []) :
    (disconnectRoomEntry conn k room).1 = none := by
  unfold disconnectRoomEntry
  rw [if_pos hseat]
  simp only
  rw [if_pos ⟨hw, hb, by rw [clearSeat_spectators]; exact hs⟩]

/-- C3 amended: disconnect removes the leaver from every surviving
room's spectator list unconditionally, and deletes a room exactly when
the leaver held a seat and, after clearing it, both seats are empty
and the spectator list (inspected before the leaver is filtered from
it) is empty. A room emptied by its last spectator's disconnect is NOT
deleted (see the counterexample) and lingers until the sweeper
reclaims it. -/
theorem disconnect_empty_room_handling {B : Type} (st : Registry B) (conn : ConnId)
    (rid : RoomId) (room : GameRoom B)
    (hnd : NoDupKeys st) (hmem : (rid, room) ∈ st) :
    NoSpectatorIn conn (disconnectH conn st).1 ∧
    ((room.white = some conn ∨ room.black = some conn) →
      (clearSeat room conn).white = none → (clearSeat room conn).black = none →
      room.spectators = [] →
      lookupRoom (disconnectH conn st).1 rid = none) := by
  refine ⟨disconnectH_no_spectator conn st, fun hseat hw hb hs => ?_⟩
  induction st with
  | nil => cases hmem
  | cons ent rest ih =>
    obtain ⟨k, r⟩ := ent
    have hnd2 : NoDupKeys rest := (List.nodup_cons.mp hnd).2
    have hknot : k ∉ rest.map Prod.fst := (List.nodup_cons.mp hnd).1
    rcases List.mem_cons.mp hmem with heq | hmem'
    · injection heq with h1 h2
      subst h1
      subst h2
      rw [disconnectH_cons_del conn rid room rest
            (disconnectRoomEntry_del conn rid room hseat hw hb hs)]
      exact disconnectH_lookup_none conn rest rid ((lookupRoom_none_iff rest rid).mpr hknot)
    · have hk : ¬ k = rid := by
        intro he
        subst he
        exact hknot (List.mem_map_of_mem Prod.fst hmem')
      rw [disconnectH_cons_lookup_other conn k r rest rid hk]
      exact ih hnd2 hmem'

/-- Concrete room for the amended-C3 witness: lone seated player "a". -/
def wRoom3 : GameRoom (List String) := ⟨some ("a"), none, [], [], [], 0, some 0⟩

/-- Concrete registry for the amended-C3 witness. -/
def wSt3 : Registry (List String) := [(("rx"), wRoom3)]

/-- Witness for the amended C3: the lone seated player's disconnect
deletes the emptied room, and no surviving room lists the leaver as a
spectator. -/
theorem disconnect_empty_room_handling_witness :
    NoSpectatorIn ("a") (disconnectH ("a") wSt3).1 ∧
    lookupRoom (disconnectH ("a") wSt3).1 ("rx") = none := by
  have h := disconnect_empty_room_handling wSt3 ("a") ("rx") wRoom3 (by decide) (by decide)
  exact ⟨h.1, h.2 (Or.inl (by decide)) (by decide) (by decide) (by decide)⟩

/-- Client-to-server events the coordinator handles. -/
inductive CEvent (M : Type) where
  | create (conn : ConnId) (rid : RoomId)
  | join (conn : ConnId) (rid : RoomId)
  | reqState (conn : ConnId) (rid : RoomId)
  | moveEv (conn : ConnId) (rid : RoomId) (m : M)
  | ping (conn : ConnId)
  | disc (conn : ConnId)

/-- Dispatch of one client event to its handler. -/
def applyEvent {B M : Type} (E : Engine B M) (now : Int) (st : Registry B) :
    CEvent M → Registry B × List (Emit B)
  | .create conn rid => createRoomH E st conn rid now
  | .join conn rid => joinRoomH E st conn rid now
  | .reqState conn rid => requestGameStateH E st conn rid
  | .moveEv conn rid m => moveH E st conn rid m now
  | .ping conn => pingH st conn now
  | .disc conn => disconnectH conn st

/-- Every room of the registry is seat/spectator disjoint. -/
def SeatInvAll {B : Type} (st : Registry B) : Prop := ∀ e ∈ st, seatDisjoint e.2

instance seatInvAllDec {B : Type} (st : Registry B) : Decidable (SeatInvAll st) := by
  unfold SeatInvAll
  exact List.decidableBAll _ _

/-- The joiner is not already a member of the room it joins. -/
def goodJoin {B : Type} (st : Registry B) (conn : ConnId) (rid : RoomId) : Prop :=
  ∀ room, lookupRoom st rid = some room → memberOfRoom room conn = false

instance goodJoinDec {B : Type} (st : Registry B) (conn : ConnId) (rid : RoomId) :
    Decidable (goodJoin st conn rid) :=
  match h : lookupRoom st rid with
  | some room =>
    if hm : memberOfRoom room conn = false then
      isTrue (fun r hr => by rw [h] at hr; cases hr; exact hm)
    else
      isFalse (fun hall => hm (hall room h))
  | none => isTrue (fun r hr => by rw [h] at hr; cases hr)

/-- Restriction excluding the one operation that breaks disjointness:
a joinRoom by a connection already in the target room. -/
def GoodEvent {B M : Type} (st : Registry B) : CEvent M → Prop
  | .join conn rid => goodJoin st conn rid
  | _ => True

instance goodEventDec {B M : Type} (st : Registry B) (ev : CEvent M) :
    Decidable (GoodEvent st ev) :=
  match ev with
  | .create _ _ => isTrue trivial
  | .join conn rid => goodJoinDec st conn rid
  | .reqState _ _ => isTrue trivial
  | .moveEv _ _ _ => isTrue trivial
  | .ping _ => isTrue trivial
  | .disc _ => isTrue trivial

theorem mem_setRoom {B : Type} (st : Registry B) (rid : RoomId) (room : GameRoom B)
    (e : RoomId × GameRoom B) (he : e ∈ setRoom st rid room) :
    e = (rid, room) ∨ e ∈ st := by
  induction st with
  | nil => simpa [setRoom] using he
  | cons ent rest ih =>
    obtain ⟨k, r⟩ := ent
    by_cases hk : k = rid
    · simp only [setRoom, if_pos hk] at he
      rcases List.mem_cons.mp he with he1 | he2
      · exact Or.inl he1
      · exact Or.inr (List.mem_cons_of_mem _ he2)
    · simp only [setRoom, if_neg hk] at he
      rcases List.mem_cons.mp he with he1 | he2
      · exact Or.inr (he1 ▸ List.mem_cons_self _ _)
      · rcases ih he2 with h1 | h2
        · exact Or.inl h1
        · exact Or.inr (List.mem_cons_of_mem _ h2)

theorem lookupRoom_mem {B : Type} (st : Registry B) (rid : RoomId) (room : GameRoom B)
    (h : lookupRoom st rid = some room) : (rid, room) ∈ st := by
  induction st with
  | nil => cases h
  | cons ent rest ih =>
    obtain ⟨k, r⟩ := ent
    simp only [lookupRoom] at h
    by_cases hk : k = rid
    · rw [if_pos hk] at h
      cases h
      subst hk
      exact List.mem_cons_self _ _
    · rw [if_neg hk] at h
      exact List.mem_cons_of_mem _ (ih h)

theorem seatDisjoint_succRoom {B : Type} (room : GameRoom B) (g2 : B) (san : String)
    (now : Int) (h : seatDisjoint room) : seatDisjoint (succRoom room g2 san now) := h

theorem joinRoom_preserves_seatDisjoint {B M : Type} (E : Engine B M) (st : Registry B)
    (conn : ConnId) (rid : RoomId) (now : Int) (hinv : SeatInvAll st)
    (hgood : goodJoin st conn rid) : SeatInvAll (joinRoomH E st conn rid now).1 := by
  cases hlook : lookupRoom st rid with
  | none =>
    intro e2 he2
    simp only [joinRoomH, hlook] at he2
    exact hinv e2 he2
  | some room =>
    have hmem0 : seatDisjoint room := hinv _ (lookupRoom_mem st rid room hlook)
    have hnm : memberOfRoom room conn = false := hgood room hlook
    simp only [memberOfRoom, Bool.or_eq_false_iff] at hnm
    obtain ⟨⟨hw0, hb0⟩, hs0⟩ := hnm
    have hw : ¬ room.white = some conn := by simpa using hw0
    have hb : ¬ room.black = some conn := by simpa using hb0
    have hs : conn ∉ room.spectators := by simpa using hs0
    intro e2 he2
    simp only [joinRoomH, hlook] at he2
    by_cases h1 : room.white = none
    · rw [if_pos h1] at he2
      rcases mem_setRoom _ _ _ _ he2 with he | he
      · subst he
        refine ⟨fun c hc => ⟨fun heq => ?_, (hmem0.1 c hc).2⟩, Or.inr (fun heq => hb heq.symm)⟩
        injection heq with heqc
        exact hs (heqc ▸ hc)
      · exact hinv _ he
    · rw [if_neg h1] at he2
      by_cases h2 : room.black = none
      · rw [if_pos h2] at he2
        rcases mem_setRoom _ _ _ _ he2 with he | he
        · subst he
          refine ⟨fun c hc => ⟨(hmem0.1 c hc).1, fun heq => ?_⟩, ?_⟩
          · injection heq with heqc
            exact hs (heqc ▸ hc)
          · rcases hmem0.2 with hn | _
            · exact absurd hn h1
            · exact Or.inr (fun heq => hw heq)
        · exact hinv _ he
      · rw [if_neg h2] at he2
        rcases mem_setRoom _ _ _ _ he2 with he | he
        · subst he
          refine ⟨fun c hc => ?_, hmem0.2⟩
          rcases List.mem_append.mp hc with hc1 | hc2
          · exact hmem0.1 c hc1
          · have : c = conn := by simpa using hc2
            subst this
            exact ⟨fun heq => hw heq, fun heq => hb heq⟩
        · exact hinv _ he

theorem pingH_preserves_seatDisjoint {B : Type} (st : Registry B) (conn : ConnId)
    (now : Int) (hinv : SeatInvAll st) : SeatInvAll (pingH st conn now).1 := by
  intro e2 he2
  simp only [pingH] at he2
  obtain ⟨a, ha, hfa⟩ := List.mem_map.mp he2
  by_cases hm : memberOfRoom a.2 conn
  · rw [if_pos hm] at hfa
    subst hfa
    exact hinv a ha
  · rw [if_neg hm] at hfa
    subst hfa
    exact hinv a ha

theorem moveH_preserves_seatDisjoint {B M : Type} (E : Engine B M) (st : Registry B)
    (conn : ConnId) (rid : RoomId) (m : M) (now : Int) (hinv : SeatInvAll st) :
    SeatInvAll (moveH E st conn rid m now).1 := by
  cases hlook : lookupRoom st rid with
  | none =>
    intro e2 he2
    simp only [moveH, hlook] at he2
    exact hinv e2 he2
  | some room =>
    intro e2 he2
    simp only [moveH, hlook] at he2
    by_cases hcond : (E.turn room.game = Side.white ∧ room.white ≠ some conn) ∨
        (¬E.turn room.game = Side.white ∧ room.black ≠ some conn)
    · rw [if_pos hcond] at he2
      exact hinv e2 he2
    · rw [if_neg hcond] at he2
      cases hmv : E.move room.game m with
      | none =>
        rw [hmv] at he2
        exact hinv e2 he2
      | some p =>
        obtain ⟨g2, san⟩ := p
        rw [hmv] at he2
        rcases mem_setRoom _ _ _ _ he2 with he | he
        · subst he
          exact seatDisjoint_succRoom room g2 san now
            (hinv _ (lookupRoom_mem st rid room hlook))
        · exact hinv _ he

theorem disconnectRoomEntry_preserves_seatDisjoint {B : Type} (conn : ConnId) (k : RoomId)
    (r r2 : GameRoom B) (hd : seatDisjoint r)
    (h : (disconnectRoomEntry conn k r).1 = some r2) : seatDisjoint r2 := by
  have hsd : seatDisjoint (clearSeat r conn) := by
    unfold clearSeat
    split
    · refine ⟨fun c hc => ⟨fun hcon => Option.noConfusion hcon, (hd.1 c hc).2⟩, Or.inl rfl⟩
    · refine ⟨fun c hc => ⟨(hd.1 c hc).1, fun hcon => Option.noConfusion hcon⟩, ?_⟩
      cases hxw : r.white with
      | none => exact Or.inl rfl
      | some w => exact Or.inr (fun hcon => by simp [hxw] at hcon)
  simp only [disconnectRoomEntry] at h
  split_ifs at h with h1 h2 <;> simp at h <;> subst h
  · exact ⟨fun c hc => hsd.1 c (List.mem_filter.mp hc).1, hsd.2⟩
  · exact ⟨fun c hc => hd.1 c (List.mem_filter.mp hc).1, hd.2⟩

theorem disconnectH_preserves_seatDisjoint {B : Type} (conn : ConnId) (st : Registry B)
    (hinv : SeatInvAll st) : SeatInvAll (disconnectH conn st).1 := by
  induction st with
  | nil =>
    intro e he
    cases he
  | cons ent rest ih =>
    obtain ⟨k, r⟩ := ent
    have hrest : SeatInvAll rest := fun e he => hinv e (List.mem_cons_of_mem _ he)
    cases hstep : (disconnectRoomEntry conn k r).1 with
    | none =>
      rw [disconnectH_cons_del conn k r rest hstep]
      exact ih hrest
    | some r2 =>
      rw [disconnectH_cons_keep conn k r r2 rest hstep]
      intro e2 he2
      rcases List.mem_cons.mp he2 with he | he
      · subst he
        exact disconnectRoomEntry_preserves_seatDisjoint conn k r r2
          (hinv _ (List.mem_cons_self _ _)) hstep
      · exact ih hrest e2 he

/-- Registry in which the creator of room r re-joined it and was handed
the black seat as well: lookupRoom yields a room whose two seats are
both held by connection a. -/
def bothSeatsSt : Registry (List String) :=
  (joinRoomH toyEngine (createRoomH toyEngine [] ("a") ("r") 0).1 ("a") ("r") 1).1

/-- Counterexample to C4: the join handler checks only seat emptiness,
never whether the joiner is already a member (middleware.ts lines
802-811), so the creator's second joinRoom seats the same connection
on both white and black — a reachable state violating the claimed
one-seat-per-connection invariant. -/
theorem join_rejoiner_takes_both_seats :
    lookupRoom bothSeatsSt ("r") =
      some (⟨some ("a"), some ("a"), [], [], [], 0, some 1⟩ : GameRoom (List String)) ∧
    ¬ seatDisjoint (⟨some ("a"), some ("a"), [], [], [], 0, some 1⟩ : GameRoom (List String)) := by
  constructor
  · decide
  · decide

/-- C4 amended: each seat holds at most one connection by construction
(an optional field), and seat/spectator disjointness of every room is
preserved by createRoom, requestGameState, move, heartbeat and
disconnect unconditionally, and by joinRoom whenever the joiner is not
already a member of the target room — the excluded case being exactly
the one the counterexample shows to break the invariant. -/
theorem seat_disjoint_preserved {B M : Type} (E : Engine B M) (now : Int)
    (st : Registry B) (ev : CEvent M) (hinv : SeatInvAll st) (hgood : GoodEvent st ev) :
    SeatInvAll (applyEvent E now st ev).1 := by
  cases ev with
  | create conn rid =>
    intro e2 he2
    rcases mem_setRoom _ _ _ _ he2 with he | he
    · subst he
      exact ⟨fun c hc => absurd hc (List.not_mem_nil c), Or.inr (fun hcon => Option.noConfusion hcon)⟩
    · exact hinv _ he
  | join conn rid => exact joinRoom_preserves_seatDisjoint E st conn rid now hinv hgood
  | reqState conn rid =>
    intro e2 he2
    have : (requestGameStateH E st conn rid).1 = st := by
      cases hlook : lookupRoom st rid <;> simp [requestGameStateH, hlook]
    rw [show (applyEvent E now st (CEvent.reqState conn rid)).1 =
          (requestGameStateH E st conn rid).1 from rfl, this] at he2
    exact hinv e2 he2
  | moveEv conn rid m => exact moveH_preserves_seatDisjoint E st conn rid m now hinv
  | ping conn => exact pingH_preserves_seatDisjoint st conn now hinv
  | disc conn => exact disconnectH_preserves_seatDisjoint conn st hinv

/-- Witness for the amended C4: a fresh connection joining the
lone-player room preserves disjointness of every room. -/
theorem seat_disjoint_preserved_witness :
    SeatInvAll (applyEvent toyEngine 1 wSt2 (CEvent.join ("b") ("r2"))).1 :=
  seat_disjoint_preserved toyEngine 1 wSt2 (CEvent.join ("b") ("r2"))
    (by decide) (by decide)

/-- Replay of a SAN log through the engine from the initial position
(feeding each notation entry back to the engine's move function, as
chess.js accepts SAN strings). -/
def replayMoves {B M : Type} (E : Engine B M) (sans : List String) : Option B :=
  sans.foldl (fun ob san => ob.bind (fun b => (E.move b (E.fromSan san)).map Prod.fst)) (some E.start)

/-- Engine coherence property (the engine is an external capability per
spec section 1; chess.js satisfies it): replaying the SAN notation an
accepted move produced reaches the same successor position. -/
def sanFaithful {B M : Type} (E : Engine B M) : Prop :=
  ∀ b m b2 san, E.move b m = some (b2, san) → E.move b (E.fromSan san) = some (b2, san)

/-- The room's board state is the replay of its move log. -/
def ReplayInv {B M : Type} (E : Engine B M) (room : GameRoom B) : Prop :=
  replayMoves E room.moves = some room.game

/-- Every room of the registry replays. -/
def ReplayInvAll {B M : Type} (E : Engine B M) (st : Registry B) : Prop :=
  ∀ e ∈ st, ReplayInv E e.2

instance replayInvDec {B M : Type} [DecidableEq B] (E : Engine B M) (room : GameRoom B) :
    Decidable (ReplayInv E room) := by
  unfold ReplayInv
  infer_instance

instance replayInvAllDec {B M : Type} [DecidableEq B] (E : Engine B M) (st : Registry B) :
    Decidable (ReplayInvAll E st) := by
  unfold ReplayInvAll
  exact List.decidableBAll _ _

/-- Success condition of the move handler: room exists, caller holds
the turn seat, engine accepts. -/
def moveAccepted {B M : Type} (E : Engine B M) (st : Registry B) (conn : ConnId)
    (rid : RoomId) (m : M) : Bool :=
  match lookupRoom st rid with
  | none => false
  | some room => decide (holdsTurnSeat E room conn) && (E.move room.game m).isSome

theorem moveH_reg_unchanged_of_not_accepted {B M : Type} (E : Engine B M) (st : Registry B)
    (conn : ConnId) (rid : RoomId) (m : M) (now : Int)
    (h : moveAccepted E st conn rid m = false) : (moveH E st conn rid m now).1 = st := by
  cases hlook : lookupRoom st rid with
  | none => simp [moveH, hlook]
  | some room =>
    simp only [moveAccepted, hlook] at h
    by_cases hh : holdsTurnSeat E room conn
    · have hmv : E.move room.game m = none := by
        cases hmvv : E.move room.game m with
        | none => rfl
        | some p =>
          rw [hmvv] at h
          simp [hh] at h
      simp only [moveH, hlook]
      rw [if_neg (fun hc => (turnCond_iff E room conn).mp hc hh), hmv]
    · rw [moveH_of_notTurn E st conn rid m now room hlook hh]

theorem moveH_reg_of_accepted {B M : Type} (E : Engine B M) (st : Registry B)
    (conn : ConnId) (rid : RoomId) (m : M) (now : Int)
    (h : moveAccepted E st conn rid m = true) :
    ∃ room g2 san, lookupRoom st rid = some room ∧ holdsTurnSeat E room conn ∧
      E.move room.game m = some (g2, san) ∧
      (moveH E st conn rid m now).1 = setRoom st rid (succRoom room g2 san now) := by
  cases hlook : lookupRoom st rid with
  | none => simp [moveAccepted, hlook] at h
  | some room =>
    simp only [moveAccepted, hlook, Bool.and_eq_true, decide_eq_true_eq,
      Option.isSome_iff_exists] at h
    obtain ⟨hh, p, hmv⟩ := h
    obtain ⟨g2, san⟩ := p
    exact ⟨room, g2, san, rfl, hh, hmv,
      by rw [moveH_success_eq E st conn rid m now room g2 san hlook hh hmv]⟩

theorem moveH_lookup_other {B M : Type} (E : Engine B M) (st : Registry B)
    (conn : ConnId) (r : RoomId) (m : M) (now : Int) (rid : RoomId) (h : rid ≠ r) :
    lookupRoom (moveH E st conn r m now).1 rid = lookupRoom st rid := by
  by_cases hacc : moveAccepted E st conn r m = true
  · obtain ⟨room, g2, san, hlook, hh, hmv, heq⟩ := moveH_reg_of_accepted E st conn r m now hacc
    rw [heq, lookupRoom_setRoom_ne st r rid _ h]
  · rw [moveH_reg_unchanged_of_not_accepted E st conn r m now (by simpa using hacc)]

theorem replayMoves_append_one {B M : Type} (E : Engine B M) (sans : List String)
    (san : String) :
    replayMoves E (sans ++ [san]) =
      (replayMoves E sans).bind (fun b => (E.move b (E.fromSan san)).map Prod.fst) := by
  unfold replayMoves
  rw [List.foldl_append]
  rfl

theorem moveH_preserves_replayInv {B M : Type} (E : Engine B M) (hNF : sanFaithful E)
    (st : Registry B) (conn : ConnId) (rid : RoomId) (m : M) (now : Int)
    (hinv : ReplayInvAll E st) : ReplayInvAll E (moveH E st conn rid m now).1 := by
  by_cases hacc : moveAccepted E st conn rid m = true
  · obtain ⟨room, g2, san, hlook, hh, hmv, heq⟩ := moveH_reg_of_accepted E st conn rid m now hacc
    rw [heq]
    intro e he
    rcases mem_setRoom _ _ _ _ he with he1 | he2
    · subst he1
      show replayMoves E (room.moves ++ [san]) = some g2
      rw [replayMoves_append_one, hinv _ (lookupRoom_mem st rid room hlook)]
      simp [hNF room.game m g2 san hmv]
    · exact hinv _ he2
  · rw [moveH_reg_unchanged_of_not_accepted E st conn rid m now (by simpa using hacc)]
    exact hinv

/-- Sequential run of move requests through the move handler, counting
the accepted requests that target the given room. -/
def runMoves {B M : Type} (E : Engine B M) (now : Int) (rid : RoomId) :
    Registry B → List (ConnId × RoomId × M) → Registry B × Nat
  | st, [] => (st, 0)
  | st, (c, r, m) :: rest =>
    let cnt : Nat := if r = rid ∧ moveAccepted E st c r m = true then 1 else 0
    let tail := runMoves E now rid (moveH E st c r m now).1 rest
    (tail.1, cnt + tail.2)

theorem runMoves_preserves_replayInv {B M : Type} (E : Engine B M) (hNF : sanFaithful E)
    (now : Int) (rid : RoomId) (reqs : List (ConnId × RoomId × M)) :
    ∀ st, ReplayInvAll E st → ReplayInvAll E (runMoves E now rid st reqs).1 := by
  induction reqs with
  | nil => exact fun st h => h
  | cons req rest ih =>
    obtain ⟨c, r, m⟩ := req
    intro st hinv
    exact ih (moveH E st c r m now).1 (moveH_preserves_replayInv E hNF st c r m now hinv)

theorem runMoves_length {B M : Type} (E : Engine B M) (now : Int) (rid : RoomId)
    (reqs : List (ConnId × RoomId × M)) :
    ∀ st room0 roomF, lookupRoom st rid = some room0 →
      lookupRoom (runMoves E now rid st reqs).1 rid = some roomF →
      roomF.moves.length = room0.moves.length + (runMoves E now rid st reqs).2 := by
  induction reqs with
  | nil =>
    intro st room0 roomF h0 hF
    simp only [runMoves] at hF ⊢
    rw [h0] at hF
    cases hF
    simp
  | cons req rest ih =>
    obtain ⟨c, r, m⟩ := req
    intro st room0 roomF h0 hF
    simp only [runMoves] at hF ⊢
    by_cases hr : r = rid
    · subst hr
      by_cases hacc : moveAccepted E st c r m = true
      · obtain ⟨room, g2, san, hlook, hh, hmv, heq⟩ := moveH_reg_of_accepted E st c r m now hacc
        rw [h0] at hlook
        cases hlook
        have h2 : lookupRoom (moveH E st c r m now).1 r = some (succRoom room0 g2 san now) := by
          rw [heq]
          exact lookupRoom_setRoom_self _ _ _
        have hlen := ih (moveH E st c r m now).1 (succRoom room0 g2 san now) roomF h2 hF
        rw [hlen]
        split_ifs with hc
        · simp only [succRoom, List.length_append, List.length_cons, List.length_nil]
          omega
        · simp [hacc] at hc
      · have hst : (moveH E st c r m now).1 = st :=
          moveH_reg_unchanged_of_not_accepted E st c r m now (by simpa using hacc)
        have hlen := ih (moveH E st c r m now).1 room0 roomF (by rw [hst]; exact h0) hF
        rw [hlen]
        rw [if_neg (fun hc => hacc hc.2)]
        omega
    · have h2 : lookupRoom (moveH E st c r m now).1 rid = some room0 := by
        rw [moveH_lookup_other E st c r m now rid (fun he => hr he.symm)]
        exact h0
      have hlen := ih (moveH E st c r m now).1 room0 roomF h2 hF
      rw [hlen]
      rw [if_neg (fun hc => hr hc.1)]
      omega

/-- C2: starting from any registry whose rooms replay (in particular a
freshly created room: empty move log, initial board), after any
sequence of move requests processed by the move handler every room's
board state is exactly the replay of its move log through the rules
engine, and the target room's move log length grows by exactly the
number of accepted move requests (each success appends exactly one
notation entry). Requires the engine's notation round-trip coherence
(sanFaithful), which the spec assigns to the external rules engine. -/
theorem moveLog_replay_roundtrip {B M : Type} (E : Engine B M) (now : Int) (rid : RoomId)
    (reqs : List (ConnId × RoomId × M)) (st : Registry B)
    (hNF : sanFaithful E) (hinv : ReplayInvAll E st) :
    ReplayInvAll E (runMoves E now rid st reqs).1 ∧
    (∀ room0 roomF, lookupRoom st rid = some room0 →
      lookupRoom (runMoves E now rid st reqs).1 rid = some roomF →
      roomF.moves.length = room0.moves.length + (runMoves E now rid st reqs).2) ∧
    (∀ conn0 rid0, ReplayInvAll E (createRoomH E st conn0 rid0 now).1) := by
  refine ⟨runMoves_preserves_replayInv E hNF now rid reqs st hinv,
    runMoves_length E now rid reqs st, fun conn0 rid0 e he => ?_⟩
  rcases mem_setRoom _ _ _ _ he with he1 | he2
  · subst he1
    show replayMoves E [] = some E.start
    rfl
  · exact hinv _ he2

theorem toyEngine_sanFaithful : sanFaithful toyEngine := by
  intro b m b2 san h
  have h2 : (if m.isEmpty then none else some (b ++ [m], m)) = some (b2, san) := h
  split_ifs at h2 with hm
  injection h2 with hp
  injection hp with hpa hpb
  subst hpa
  subst hpb
  show (if m.isEmpty then none else some (b ++ [m], m)) = some (b ++ [m], m)
  rw [if_neg hm]

/-- Concrete request list for the C2 witness: one legal move by the
white seat holder, one out-of-turn attempt, one engine-rejected
attempt. -/
def wReqs : List (ConnId × RoomId × String) :=
  [(("a"), ("r2"), ("e4")), (("b"), ("r2"), ("d5")), (("a"), ("r2"), (""))]

/-- Witness for C2: after the concrete run only the accepted move is
counted, the room still replays, and the move log grew by one. -/
theorem moveLog_replay_roundtrip_witness :
    ReplayInvAll toyEngine (runMoves toyEngine 5 ("r2") wSt2 wReqs).1 ∧
    (succRoom wRoom2 ([("e4")]) ("e4") 5).moves.length =
      wRoom2.moves.length + (runMoves toyEngine 5 ("r2") wSt2 wReqs).2 := by
  have h := moveLog_replay_roundtrip toyEngine 5 ("r2") wReqs wSt2
    toyEngine_sanFaithful (by decide)
  exact ⟨h.1, h.2.1 wRoom2 (succRoom wRoom2 ([("e4")]) ("e4") 5) (by decide) (by decide)⟩

end ChessCoord
